import Mathlib

/-!
Shallow embedding of `vgmparse` (src/vgmparse/__init__.py), a decoder and
re-encoder for VGM ("Video Game Music") binary files, together with proofs
about the embedded code.

Modelling conventions:
* A byte buffer is a `List Nat` (Python `bytes`; entries are < 256 in real
  inputs, stated as a hypothesis `isBytes` where a proof needs it).
* `io.BytesIO` reads are `bufRead buf pos n = (buf.drop pos).take n`: a read
  past the end returns the empty list and does not advance the cursor, exactly
  like `BytesIO.read`.
* Fallible operations (`struct.unpack`, list indexing) return `Option`/`Except`.
* The command-scan `while True:` loop is embedded with explicit fuel; running
  out of fuel (`ScanResult.hang`) models non-termination of the Python loop.
* The code runs under Python 3 (the repository's test suite imports it there),
  so `self.data` is `io.BytesIO` and `self.data.read(1)` yields `bytes`.
  Consequence embedded faithfully below: the guard `if command == '':`
  compares `bytes` with `str`, which is always `False` in Python 3, so the
  end-of-file break in `parse_commands` never fires.
* The gzip fallback of `validate_vgm_data` is out of scope (spec §1); a buffer
  whose first four bytes are not the magic is modelled as the ValueError path.
-/

namespace Vgmparse

/-- Little-endian decoding of a byte list, as `struct.unpack` (`<I`, `<H`, `B`)
does on its exactly-sized input. -/
def unpackLE : List Nat → Nat
  | [] => 0
  | b :: rest => b + 256 * unpackLE rest

/-- Little-endian encoding of `v` into `n` bytes, as `struct.pack` does for an
in-range value. -/
def packLE : Nat → Nat → List Nat
  | 0, _ => []
  | n + 1, v => v % 256 :: packLE n (v / 256)

/-- Packing via `struct.pack` raises for an out-of-range value; `none` models that. -/
def packField (n v : Nat) : Option (List Nat) :=
  if v < 2 ^ (8 * n) then some (packLE n v) else none

/-- The `b'Vgm '` magic number (class attribute `vgm_magic_number`). -/
def vgm_magic_number : List Nat := [0x56, 0x67, 0x6d, 0x20]

/-- Class attribute `supported_ver_list`. -/
def supported_ver_list : List Nat := [0x00000101, 0x00000150]

/-- Python buffer entries are bytes, i.e. values below 256. -/
def isBytes (l : List Nat) : Prop := ∀ b ∈ l, b < 256

instance (l : List Nat) : Decidable (isBytes l) := by
  unfold isBytes; infer_instance

/-- Reading `self.data.read(n)` with the cursor at `pos`: returns at most `n` bytes,
fewer (or none) at end of buffer. -/
def bufRead (buf : List Nat) (pos n : Nat) : List Nat := (buf.drop pos).take n

/-- One entry of `command_list`: `{'command': ..., 'data': ...}`. -/
structure Cmd where
  command : Nat
  data : Option (List Nat)
deriving DecidableEq, Repr

/-- The `self.metadata` dict resulting from `parse_metadata`, one field per
key of `metadata_offsets`, in the dict's insertion order. -/
structure Metadata where
  vgm_ident : List Nat
  eof_offset : Nat
  version : Nat
  sn76489_clock : Nat
  ym2413_clock : Nat
  gd3_offset : Nat
  total_samples : Nat
  loop_offset : Nat
  loop_samples : Nat
  rate : Nat
  sn76489_feedback : Nat
  sn76489_shift_register_width : Nat
  ym2612_clock : Nat
  ym2151_clock : Nat
  vgm_data_offset : Nat
deriving DecidableEq, Repr

/-- The `self.gd3_data` dict built by `parse_gd3`, in the source's key order. -/
structure Gd3 where
  title_eng : List Nat
  title_jap : List Nat
  game_eng : List Nat
  game_jap : List Nat
  console_eng : List Nat
  console_jap : List Nat
  artist_eng : List Nat
  artist_jap : List Nat
  date : List Nat
  vgm_creator : List Nat
  notes : List Nat
deriving DecidableEq, Repr

/-- Python exception classes distinguished by the source. -/
inductive PErr where
  | valueError
  | versionError
  | structError
  | indexError
deriving DecidableEq, Repr

/-- Outcome of the `parse_commands` scan loop. `hang` is fuel exhaustion and
models the Python loop not terminating; `err` carries the cursor position at
the raising read; `done` carries `command_list`, `data_block` and the cursor
position when the loop exits. -/
inductive ScanResult where
  | hang : ScanResult
  | err : PErr → Nat → ScanResult
  | done : List Cmd → Option (List Nat) → Nat → ScanResult
deriving DecidableEq, Repr

/-- The body of `Parser.parse_commands`'s `while True:` loop (source lines
85-153), one fuel unit per iteration.  Dispatch order and reads follow the
source exactly.  At end of buffer `read(1)` returns the empty `bytes`; the
source's `if command == '':` guard is a bytes-to-str comparison that is always
`False` under Python 3, and the empty read matches no dispatch branch either,
so the loop repeats at the same position (first match arm).  A byte outside
every enumerated range was still consumed by `read(1)`, and no branch matches
it, so the loop simply continues at the next position (last arm). -/
def parseCommandsLoop (buf : List Nat) : Nat → Nat → List Cmd → Option (List Nat) → ScanResult
  | 0, _, _, _ => .hang
  | fuel + 1, pos, cmds, db =>
    match bufRead buf pos 1 with
    | [] => parseCommandsLoop buf fuel pos cmds db
    | c :: _ =>
      let pos1 := pos + 1
      if c = 0x4f ∨ c = 0x50 then
        let d := bufRead buf pos1 1
        parseCommandsLoop buf fuel (pos1 + d.length) (cmds ++ [⟨c, some d⟩]) db
      else if c = 0x51 ∨ c = 0x52 ∨ c = 0x53 ∨ c = 0x54 then
        let d := bufRead buf pos1 2
        parseCommandsLoop buf fuel (pos1 + d.length) (cmds ++ [⟨c, some d⟩]) db
      else if c = 0x61 then
        let d := bufRead buf pos1 2
        parseCommandsLoop buf fuel (pos1 + d.length) (cmds ++ [⟨c, some d⟩]) db
      else if c = 0x62 ∨ c = 0x63 ∨ c = 0x66 then
        if c = 0x66 then .done (cmds ++ [⟨c, none⟩]) db pos1
        else parseCommandsLoop buf fuel pos1 (cmds ++ [⟨c, none⟩]) db
      else if c = 0x67 then
        if (bufRead buf (pos1 + 2) 4).length = 4 then
          parseCommandsLoop buf fuel
            (pos1 + 2 + 4 +
              (bufRead buf (pos1 + 2 + 4)
                (unpackLE (bufRead buf (pos1 + 2) 4))).length)
            cmds
            (some (bufRead buf (pos1 + 2 + 4) (unpackLE (bufRead buf (pos1 + 2) 4))))
        else .err .structError (pos1 + 2 + (bufRead buf (pos1 + 2) 4).length)
      else if 0x70 ≤ c ∧ c ≤ 0x8f then
        parseCommandsLoop buf fuel pos1 (cmds ++ [⟨c, none⟩]) db
      else if c = 0xe0 then
        let d := bufRead buf pos1 4
        parseCommandsLoop buf fuel (pos1 + d.length) (cmds ++ [⟨c, some d⟩]) db
      else
        parseCommandsLoop buf fuel pos1 cmds db

/-- Method `Parser.parse_commands`: seek to `vgm_data_offset + 0x34` (the stored value
plus the field's own header offset) and run the scan loop. -/
def parse_commands (buf : List Nat) (v fuel : Nat) : ScanResult :=
  parseCommandsLoop buf fuel (v + 0x34) [] none

/-- Method `Parser.parse_commands` with the cursor threaded: the source saves
`original_pos` on entry and seeks back to it after the loop exits normally.
On an exception the cursor is left at the raising read; on `hang` the call
never returns, so the paired position is vacuous (we return `pos0`). -/
def parseCommandsSt (buf : List Nat) (v pos0 fuel : Nat) : ScanResult × Nat :=
  match parse_commands buf v fuel with
  | .done cs db p => (.done cs db p, pos0)
  | .err e p => (.err e p, p)
  | .hang => (.hang, pos0)

/-- The field-splitting loop of `parse_gd3` (source lines 176-193): read
two-byte units from the payload; a `00 00` unit closes the current field; a
lone final byte is appended to the current field and then the loop breaks, so
an unterminated trailing field is dropped. -/
def gd3Split : List Nat → List Nat → List (List Nat)
  | [], _ => []
  | [_], _ => []
  | x :: y :: rest, cur =>
    if x = 0 ∧ y = 0 then cur :: gd3Split rest []
    else gd3Split rest (cur ++ [x, y])

/-- The delimited fields `parse_gd3` extracts from buffer `buf` with stored
gd3 offset `g`: seek to `g + 0x14`, skip 8 bytes, read the 4-byte length,
read that many payload bytes, split. -/
def gd3FieldsOf (buf : List Nat) (g : Nat) : List (List Nat) :=
  gd3Split (bufRead buf (g + 0x20) (unpackLE (bufRead buf (g + 0x1c) 4))) []

/-- Method `Parser.parse_gd3` with the cursor threaded.  Seeks to
`gd3_offset + 0x14` (stored value plus the field's own header offset 0x14),
skips the 8-byte `Gd3 `+version sub-header, reads the 4-byte little-endian
length (`struct.unpack` raises unless exactly 4 bytes come back), reads the
payload, splits it into fields, and indexes fields 0..10 (IndexError unless
at least 11 exist).  On success the cursor is restored to `pos0`. -/
def parseGd3St (buf : List Nat) (g pos0 : Nat) : Except PErr Gd3 × Nat :=
  let lenBytes := bufRead buf (g + 0x1c) 4
  if lenBytes.length ≠ 4 then (.error .structError, g + 0x1c + lenBytes.length)
  else
    let payload := bufRead buf (g + 0x20) (unpackLE lenBytes)
    let fields := gd3Split payload []
    if 11 ≤ fields.length then
      (.ok ⟨fields.getD 0 [], fields.getD 1 [], fields.getD 2 [],
            fields.getD 3 [], fields.getD 4 [], fields.getD 5 [],
            fields.getD 6 [], fields.getD 7 [], fields.getD 8 [],
            fields.getD 9 [], fields.getD 10 []⟩, pos0)
    else (.error .indexError, g + 0x20 + payload.length)

/-- Method `Parser.parse_gd3`, result only. -/
def parse_gd3 (buf : List Nat) (g : Nat) : Except PErr Gd3 :=
  (parseGd3St buf g 0).1

/-- The dict assembly of `parse_gd3`: the eleven fields in the source's fixed
order (the indexing is guarded by the 11-field check, so the defaults never
fire when `parse_gd3` uses this). -/
def gd3Assemble (fields : List (List Nat)) : Gd3 :=
  ⟨fields.getD 0 [], fields.getD 1 [], fields.getD 2 [], fields.getD 3 [],
   fields.getD 4 [], fields.getD 5 [], fields.getD 6 [], fields.getD 7 [],
   fields.getD 8 [], fields.getD 9 [], fields.getD 10 []⟩

instance exceptDecEq {α β : Type} [DecidableEq α] [DecidableEq β] :
    DecidableEq (Except α β) := fun x y =>
  match x, y with
  | .error a, .error b =>
    if h : a = b then isTrue (by rw [h]) else isFalse (by simp [h])
  | .ok a, .ok b =>
    if h : a = b then isTrue (by rw [h]) else isFalse (by simp [h])
  | .error _, .ok _ => isFalse (by simp)
  | .ok _, .error _ => isFalse (by simp)

/-- Number of bytes `read` actually returns for a field. -/
def fieldLen (buf : List Nat) (off n : Nat) : Nat := (bufRead buf off n).length

/-- Value of an integer header field, assuming the read returned `n` bytes. -/
def readLE (buf : List Nat) (off n : Nat) : Nat := unpackLE (bufRead buf off n)

/-- All fourteen `struct.unpack` calls of `parse_metadata` receive exactly
their declared byte count (the `vgm_ident` read has no format and cannot
raise). -/
def metadataFieldsOk (buf : List Nat) : Prop :=
  fieldLen buf 0x04 4 = 4 ∧ fieldLen buf 0x08 4 = 4 ∧ fieldLen buf 0x0c 4 = 4 ∧
  fieldLen buf 0x10 4 = 4 ∧ fieldLen buf 0x14 4 = 4 ∧ fieldLen buf 0x18 4 = 4 ∧
  fieldLen buf 0x1c 4 = 4 ∧ fieldLen buf 0x20 4 = 4 ∧ fieldLen buf 0x24 4 = 4 ∧
  fieldLen buf 0x28 2 = 2 ∧ fieldLen buf 0x2a 1 = 1 ∧ fieldLen buf 0x2c 4 = 4 ∧
  fieldLen buf 0x30 4 = 4 ∧ fieldLen buf 0x34 4 = 4

instance (buf : List Nat) : Decidable (metadataFieldsOk buf) := by
  unfold metadataFieldsOk; infer_instance

/-- The cursor position after the first short read, in the dict's iteration
order — where the propagating `struct.error` leaves the cursor. -/
def metadataFailPos (buf : List Nat) : Nat :=
  if fieldLen buf 0x04 4 ≠ 4 then 0x04 + fieldLen buf 0x04 4
  else if fieldLen buf 0x08 4 ≠ 4 then 0x08 + fieldLen buf 0x08 4
  else if fieldLen buf 0x0c 4 ≠ 4 then 0x0c + fieldLen buf 0x0c 4
  else if fieldLen buf 0x10 4 ≠ 4 then 0x10 + fieldLen buf 0x10 4
  else if fieldLen buf 0x14 4 ≠ 4 then 0x14 + fieldLen buf 0x14 4
  else if fieldLen buf 0x18 4 ≠ 4 then 0x18 + fieldLen buf 0x18 4
  else if fieldLen buf 0x1c 4 ≠ 4 then 0x1c + fieldLen buf 0x1c 4
  else if fieldLen buf 0x20 4 ≠ 4 then 0x20 + fieldLen buf 0x20 4
  else if fieldLen buf 0x24 4 ≠ 4 then 0x24 + fieldLen buf 0x24 4
  else if fieldLen buf 0x28 2 ≠ 2 then 0x28 + fieldLen buf 0x28 2
  else if fieldLen buf 0x2a 1 ≠ 1 then 0x2a + fieldLen buf 0x2a 1
  else if fieldLen buf 0x2c 4 ≠ 4 then 0x2c + fieldLen buf 0x2c 4
  else if fieldLen buf 0x30 4 ≠ 4 then 0x30 + fieldLen buf 0x30 4
  else 0x34 + fieldLen buf 0x34 4

/-- Method `Parser.parse_metadata` with the cursor threaded: per `metadata_offsets`
entry (in the dict's insertion order) seek to the offset and read the declared
size; `struct.unpack` raises (`none`, cursor left at the raising read) unless
exactly that many bytes come back; `vgm_ident` has no format and stores the
raw bytes.  On success the cursor is restored to `pos0`. -/
def parseMetadataSt (buf : List Nat) (pos0 : Nat) : Option Metadata × Nat :=
  if metadataFieldsOk buf then
    (some ⟨bufRead buf 0x00 4, readLE buf 0x04 4, readLE buf 0x08 4,
      readLE buf 0x0c 4, readLE buf 0x10 4, readLE buf 0x14 4,
      readLE buf 0x18 4, readLE buf 0x1c 4, readLE buf 0x20 4,
      readLE buf 0x24 4, readLE buf 0x28 2, readLE buf 0x2a 1,
      readLE buf 0x2c 4, readLE buf 0x30 4, readLE buf 0x34 4⟩, pos0)
  else (none, metadataFailPos buf)

/-- Method `Parser.parse_metadata`, result only. -/
def parse_metadata (buf : List Nat) : Option Metadata :=
  (parseMetadataSt buf 0).1

/-- Method `Parser.validate_vgm_data` with the cursor threaded: seek to 0, read 4
bytes, compare with the magic; on success seek back to `pos0`.  The gzip
fallback for a non-magic buffer is outside the modelled scope (spec §1), so
that path is the ValueError outcome here, with the cursor after the read. -/
def validateVgmDataSt (buf : List Nat) (pos0 : Nat) : Except PErr Unit × Nat :=
  let magic := bufRead buf 0 4
  if magic = vgm_magic_number then (.ok (), pos0)
  else (.error .valueError, magic.length)

/-- Hex digit character, lowercase, as Python's `%x` renders one. -/
def hexDigitChar (n : Nat) : Char :=
  if n < 10 then Char.ofNat (48 + n) else Char.ofNat (87 + n)

/-- Hex digits of `n` most-significant first (fuel-driven; fuel `n+1` always
suffices since the digit count of `n` is at most `n+1`). -/
def hexChars : Nat → Nat → List Char
  | 0, _ => []
  | f + 1, n =>
    if n < 16 then [hexDigitChar n]
    else hexChars f (n / 16) ++ [hexDigitChar (n % 16)]

/-- Python `'%01x' % n`: at least one hex digit, no extra padding needed. -/
def fmtHex1 (n : Nat) : String := String.mk (hexChars (n + 1) n)

/-- Python `'%02x' % n`: hex digits left-padded with `0` to width 2. -/
def fmtHex2 (n : Nat) : String :=
  let cs := hexChars (n + 1) n
  String.mk (List.replicate (2 - cs.length) '0' ++ cs)

/-- Method `Parser.version_str`, rendering the version as hex digits via the
percent-format of the shifted and masked value. -/
def version_str (v : Nat) : String :=
  fmtHex1 (v / 256) ++ "." ++ fmtHex2 (v % 256)

/-- Method `Parser.validate_vgm_version`: raise `VersionError` with the rendered
version string unless the version is in `supported_ver_list`. -/
def validate_vgm_version (v : Nat) : Except String Unit :=
  if v ∈ supported_ver_list then .ok ()
  else .error ("VGM version " ++ version_str v ++ " is not supported")

/-- Writing `buffer.seek(pos); buffer.write(bs)` on a `BytesIO`-like sink: overwrite
in place, zero-fill any gap beyond the current end, extend as needed. -/
def writeAt (buf : List Nat) (pos : Nat) (bs : List Nat) : List Nat :=
  buf.take pos ++ List.replicate (pos - buf.length) 0 ++ bs ++ buf.drop (pos + bs.length)

/-- The bytes `save` emits for one command record: the opcode byte, then the
operand bytes when `cmd['data']` is truthy (both `None` and the empty bytes
are falsy in `if cmd['data']:`). -/
def encodeCmd (c : Cmd) : List Nat :=
  c.command :: (match c.data with
    | some (x :: xs) => x :: xs
    | _ => [])

/-- The bytes of the command-list section of `save` (sequential writes). -/
def encodeCmds (l : List Cmd) : List Nat := (l.map encodeCmd).flatten

/-- The integer entries of `metadata_offsets` in dict insertion order, with
the value `save` writes for each: `(offset, size, value)`. -/
def fieldWrites (m : Metadata) : List (Nat × Nat × Nat) :=
  [(0x04, 4, m.eof_offset), (0x08, 4, m.version), (0x0c, 4, m.sn76489_clock),
   (0x10, 4, m.ym2413_clock), (0x14, 4, m.gd3_offset),
   (0x18, 4, m.total_samples), (0x1c, 4, m.loop_offset),
   (0x20, 4, m.loop_samples), (0x24, 4, m.rate), (0x28, 2, m.sn76489_feedback),
   (0x2a, 1, m.sn76489_shift_register_width), (0x2c, 4, m.ym2612_clock),
   (0x30, 4, m.ym2151_clock), (0x34, 4, m.vgm_data_offset)]

/-- The field loop of `save`: per entry seek to the offset, `struct.pack` the
value (raising for an out-of-range value) and write the bytes. -/
def writeFields (buf : List Nat) : List (Nat × Nat × Nat) → Option (List Nat)
  | [] => some buf
  | (off, n, v) :: rest =>
    match packField n v with
    | none => none
    | some bs => writeFields (writeAt buf off bs) rest

/-- Method `Parser.save`: pre-fill 0x40 zero bytes, write each `metadata_offsets`
field at its offset (in the dict's insertion order, packing integer fields and
writing `vgm_ident` raw), then write the command records sequentially.  After
the last field write (offset 0x34, size 4) the sink's cursor sits at 0x38, so
the command section starts there. -/
def save (m : Metadata) (cmds : List Cmd) : Option (List Nat) :=
  let b := writeAt [] 0 (List.replicate 0x40 0)
  let b := writeAt b 0x00 m.vgm_ident
  (writeFields b (fieldWrites m)).map fun b => writeAt b 0x38 (encodeCmds cmds)

/-- The parsed state a fully constructed `Parser` instance exposes. -/
structure Parsed where
  metadata : Metadata
  gd3_data : Gd3
  command_list : List Cmd
  data_block : Option (List Nat)
deriving DecidableEq, Repr

/-- Overall outcome of `Parser.__init__`. -/
inductive PResult (α : Type) where
  | ok : α → PResult α
  | err : PErr → PResult α
  | hang : PResult α
deriving DecidableEq, Repr

/-- Constructor `Parser.__init__`: validate the magic, parse the metadata, validate the
version, parse the GD3 block, parse the command stream. -/
def parseFile (buf : List Nat) (fuel : Nat) : PResult Parsed :=
  match (validateVgmDataSt buf 0).1 with
  | .error e => .err e
  | .ok _ =>
    match parse_metadata buf with
    | none => .err .structError
    | some m =>
      match validate_vgm_version m.version with
      | .error _ => .err .versionError
      | .ok _ =>
        match parse_gd3 buf m.gd3_offset with
        | .error e => .err e
        | .ok g =>
          match parse_commands buf m.vgm_data_offset fuel with
          | .hang => .hang
          | .err e _ => .err e
          | .done cs db _ => .ok ⟨m, g, cs, db⟩

/-- Range constraints every metadata map produced by `parse_metadata` on a
genuine byte buffer satisfies: the identifier is the four raw bytes read, and
each integer field fits its declared width. -/
def MWF (m : Metadata) : Prop :=
  m.vgm_ident.length = 4 ∧ m.eof_offset < 2 ^ 32 ∧ m.version < 2 ^ 32 ∧
  m.sn76489_clock < 2 ^ 32 ∧ m.ym2413_clock < 2 ^ 32 ∧ m.gd3_offset < 2 ^ 32 ∧
  m.total_samples < 2 ^ 32 ∧ m.loop_offset < 2 ^ 32 ∧ m.loop_samples < 2 ^ 32 ∧
  m.rate < 2 ^ 32 ∧ m.sn76489_feedback < 2 ^ 16 ∧
  m.sn76489_shift_register_width < 2 ^ 8 ∧ m.ym2612_clock < 2 ^ 32 ∧
  m.ym2151_clock < 2 ^ 32 ∧ m.vgm_data_offset < 2 ^ 32

/-- Closed form of the 0x38-byte header region `save` produces (proved equal
to `save`'s output below, never assumed): the field encodings laid out at
their offsets, with the uncovered byte 0x2b left zero from the pre-fill. -/
def headerBytes (m : Metadata) : List Nat :=
  m.vgm_ident ++ packLE 4 m.eof_offset ++ packLE 4 m.version ++
  packLE 4 m.sn76489_clock ++ packLE 4 m.ym2413_clock ++ packLE 4 m.gd3_offset ++
  packLE 4 m.total_samples ++ packLE 4 m.loop_offset ++ packLE 4 m.loop_samples ++
  packLE 4 m.rate ++ packLE 2 m.sn76489_feedback ++
  packLE 1 m.sn76489_shift_register_width ++ [0] ++ packLE 4 m.ym2612_clock ++
  packLE 4 m.ym2151_clock ++ packLE 4 m.vgm_data_offset

/-- Shape of every command list a terminating scan appends: each record's
operand has exactly the width its opcode dictates, records other than the
final one carry a non-terminating opcode, and the list ends with the 0x66
end-of-stream record (the only way the scan loop exits). -/
inductive CmdsWF : List Cmd → Prop
  | last : CmdsWF [⟨0x66, none⟩]
  | one (c : Nat) (d : List Nat) (rest : List Cmd) :
      c = 0x4f ∨ c = 0x50 → d.length = 1 → CmdsWF rest → CmdsWF (⟨c, some d⟩ :: rest)
  | two (c : Nat) (d : List Nat) (rest : List Cmd) :
      c = 0x51 ∨ c = 0x52 ∨ c = 0x53 ∨ c = 0x54 ∨ c = 0x61 → d.length = 2 →
      CmdsWF rest → CmdsWF (⟨c, some d⟩ :: rest)
  | zero (c : Nat) (rest : List Cmd) :
      c = 0x62 ∨ c = 0x63 ∨ (0x70 ≤ c ∧ c ≤ 0x8f) → CmdsWF rest →
      CmdsWF (⟨c, none⟩ :: rest)
  | four (d : List Nat) (rest : List Cmd) :
      d.length = 4 → CmdsWF rest → CmdsWF (⟨0xe0, some d⟩ :: rest)

/-- A 0x39-byte synthetic VGM file: version 1.01, `gd3_offset = 0` (tag block
inside the header, 11 terminators), `vgm_data_offset = 4` (command stream at
0x38), a single end-of-stream command. -/
def wBuf : List Nat :=
  [0x56, 0x67, 0x6d, 0x20,  0, 0, 0, 0,  0x01, 0x01, 0, 0,  0, 0, 0, 0,
   0, 0, 0, 0,  0, 0, 0, 0,  0, 0, 0, 0,  24, 0, 0, 0,
   0, 0, 0, 0,  0, 0, 0, 0,  0, 0,  0,  0,  0, 0, 0, 0,  0, 0, 0, 0,
   4, 0, 0, 0,  0x66]

/-- The parsed state of `wBuf`. -/
def wP : Parsed :=
  ⟨⟨[0x56, 0x67, 0x6d, 0x20], 0, 0x101, 0, 0, 0, 0, 24, 0, 0, 0, 0, 0, 0, 4⟩,
   ⟨[], [], [], [], [], [], [], [], [], [], [4, 0]⟩,
   [⟨0x66, none⟩], none⟩

/-- The bytes `save` emits for `wP`: `wBuf` itself plus the pre-fill's
remaining zero bytes. -/
def wS : List Nat := wBuf ++ List.replicate 7 0

/-- A command stream with no 0x66 terminator: opcode 0x4f and its operand,
then end of buffer. -/
def c1Buf : List Nat := List.replicate 0x34 0 ++ [0x4f, 0xff]

/-- A command stream starting with a byte (0x05) outside every enumerated
opcode range, followed by the 0x66 terminator. -/
def c3Buf : List Nat := List.replicate 0x34 0 ++ [0x05, 0x66]

/-- A 91-byte VGM file with `vgm_data_offset = 0x26` (command stream at 0x5a,
after an explicit GD3 block at 0x38): parses fine, but `save` relocates the
commands to 0x38 and drops the GD3 block, so re-parsing its output fails. -/
def c2Buf : List Nat :=
  [0x56, 0x67, 0x6d, 0x20,  0, 0, 0, 0,  0x01, 0x01, 0, 0,  0, 0, 0, 0,
   0, 0, 0, 0,  0x24, 0, 0, 0,  0, 0, 0, 0,  0, 0, 0, 0,
   0, 0, 0, 0,  0, 0, 0, 0,  0, 0,  0,  0,  0, 0, 0, 0,  0, 0, 0, 0,
   0x26, 0, 0, 0,
   0x47, 0x64, 0x33, 0x20,  0, 1, 0, 0,  22, 0, 0, 0] ++
  List.replicate 22 0 ++ [0x66]

/-- The parsed state of `c2Buf`. -/
def c2P : Parsed :=
  ⟨⟨[0x56, 0x67, 0x6d, 0x20], 0, 0x101, 0, 0, 0x24, 0, 0, 0, 0, 0, 0, 0, 0, 0x26⟩,
   ⟨[], [], [], [], [], [], [], [], [], [], []⟩,
   [⟨0x66, none⟩], none⟩

/-- The bytes `save` emits for `c2P`: header, then the commands at 0x38 — the
original GD3 block and data placement are gone. -/
def c2S : List Nat := c2Buf.take 56 ++ [0x66] ++ List.replicate 7 0

/-- A buffer whose bytes below position `3 + 0x14` are garbage (0xaa), with a
well-formed GD3 region exactly at `3 + 0x14`. -/
def c5Gd3Buf : List Nat :=
  List.replicate 0x17 0xaa ++
  [0xbb, 0xbb, 0xbb, 0xbb, 0xbb, 0xbb, 0xbb, 0xbb, 22, 0, 0, 0] ++
  List.replicate 22 0

/-- A buffer whose bytes below position `2 + 0x34` are garbage (0xaa), with
the 0x66 end-of-stream command exactly at `2 + 0x34`. -/
def c5CmdBuf : List Nat := List.replicate 54 0xaa ++ [0x66]

/-- A GD3 region (at stored offset 0) whose declared 24-byte payload holds 12
two-byte zero terminators. -/
def c7Buf : List Nat := List.replicate 0x1c 0 ++ [24, 0, 0, 0] ++ List.replicate 24 0

/-- A GD3 region (at stored offset 0) whose declared 22-byte payload holds
exactly 11 two-byte zero terminators. -/
def c7WBuf : List Nat := List.replicate 0x1c 0 ++ [22, 0, 0, 0] ++ List.replicate 22 0

/-- A command stream with two 0x67 data blocks (payloads `aa bb` and `cc`)
followed by the 0x66 terminator. -/
def c8Buf : List Nat :=
  List.replicate 0x34 0 ++
  [0x67, 0x66, 0x00, 2, 0, 0, 0, 0xaa, 0xbb,
   0x67, 0x66, 0x00, 1, 0, 0, 0, 0xcc, 0x66]

theorem bufRead_nil (buf : List Nat) (pos n : Nat) (h : buf.length ≤ pos) :
    bufRead buf pos n = [] := by
  unfold bufRead
  rw [List.drop_eq_nil_of_le h]
  simp

theorem bufRead_zero (buf : List Nat) (n : Nat) : bufRead buf 0 n = buf.take n := by
  simp [bufRead]

/-- At end of buffer `read(1)` keeps returning empty and no branch matches,
so the scan loop consumes all its fuel without returning: the Python loop
runs forever. -/
theorem scan_hang_of_eof (buf : List Nat) (fuel pos : Nat) (cmds : List Cmd)
    (db : Option (List Nat)) (h : buf.length ≤ pos) :
    parseCommandsLoop buf fuel pos cmds db = .hang := by
  induction fuel with
  | zero => rfl
  | succ f ih =>
    rw [parseCommandsLoop, bufRead_nil buf pos 1 h]
    exact ih

/-- C1: the spec says the command scan stops without error at end of buffer,
but the code's end-of-file guard `if command == '':` compares the `bytes`
result of `read(1)` with a `str` and is always `False` under Python 3, so on
a stream that ends before any 0x66 opcode `parse_commands` never returns: for
every fuel bound the loop is still running.  The spec states the intended
behaviour (as does the source comment "Break if we are at the end of the
file"); the code does not implement it. -/
theorem c1_parse_commands_hangs_when_stream_ends_without_terminator (fuel : Nat) :
    parse_commands c1Buf 0 fuel = ScanResult.hang := by
  match fuel with
  | 0 => rfl
  | f + 1 =>
    have step : parse_commands c1Buf 0 (f + 1)
        = parseCommandsLoop c1Buf f 54 [⟨0x4f, some [0xff]⟩] none := rfl
    rw [step]
    exact scan_hang_of_eof _ _ _ _ _ (by decide)

/-- C1 witness: with a concrete fuel bound the scan on the terminator-less
stream is still running. -/
theorem c1_witness : parse_commands c1Buf 0 1000 = ScanResult.hang :=
  c1_parse_commands_hangs_when_stream_ends_without_terminator 1000

/-- C3 counterexample: the claim says a byte outside every enumerated opcode
range makes the scan loop retry forever at the same position; in fact
`read(1)` has already consumed the byte, so the scan moves on — here it runs
past the unknown byte 0x05 and terminates at the following 0x66. -/
theorem c3_counterexample_unknown_byte_is_passed :
    parse_commands c3Buf 0 3 = ScanResult.done [⟨0x66, none⟩] none 54 := by decide

/-- C3 amended: a byte outside every enumerated range is consumed and
silently skipped — one loop iteration advances exactly one position past it,
appends no record, and leaves the data block untouched. -/
theorem c3_amended_unknown_byte_consumed_and_skipped (buf : List Nat)
    (fuel pos : Nat) (cmds : List Cmd) (db : Option (List Nat)) (c : Nat)
    (hread : bufRead buf pos 1 = [c])
    (hout : c ≠ 0x4f ∧ c ≠ 0x50 ∧ c ≠ 0x51 ∧ c ≠ 0x52 ∧ c ≠ 0x53 ∧ c ≠ 0x54 ∧
      c ≠ 0x61 ∧ c ≠ 0x62 ∧ c ≠ 0x63 ∧ c ≠ 0x66 ∧ c ≠ 0x67 ∧
      ¬(0x70 ≤ c ∧ c ≤ 0x8f) ∧ c ≠ 0xe0) :
    parseCommandsLoop buf (fuel + 1) pos cmds db =
      parseCommandsLoop buf fuel (pos + 1) cmds db := by
  obtain ⟨h1, h2, h3, h4, h5, h6, h7, h8, h9, h10, h11, h12, h13⟩ := hout
  rw [parseCommandsLoop, hread]
  simp only [h1, h2, h3, h4, h5, h6, h7, h8, h9, h10, h11, h12, h13,
    false_or, or_self, if_false, ite_false]

/-- C3 amended witness: the unknown byte 0x05 at position 0 is consumed and
the loop continues at position 1. -/
theorem c3_witness :
    (bufRead [0x05] 0 1 = [0x05] ∧
      ((0x05 : Nat) ≠ 0x4f ∧ (0x05 : Nat) ≠ 0x50 ∧ (0x05 : Nat) ≠ 0x51 ∧
       (0x05 : Nat) ≠ 0x52 ∧ (0x05 : Nat) ≠ 0x53 ∧ (0x05 : Nat) ≠ 0x54 ∧
       (0x05 : Nat) ≠ 0x61 ∧ (0x05 : Nat) ≠ 0x62 ∧ (0x05 : Nat) ≠ 0x63 ∧
       (0x05 : Nat) ≠ 0x66 ∧ (0x05 : Nat) ≠ 0x67 ∧
       ¬((0x70 : Nat) ≤ 0x05 ∧ (0x05 : Nat) ≤ 0x8f) ∧ (0x05 : Nat) ≠ 0xe0)) ∧
    parseCommandsLoop [0x05] 1 0 [] none = parseCommandsLoop [0x05] 0 1 [] none :=
  ⟨⟨by decide, by decide⟩,
    c3_amended_unknown_byte_consumed_and_skipped [0x05] 0 0 [] none 0x05
      (by decide) (by decide)⟩

/-- C6: version 0x00000101 and 0x00000150 pass the allow-list check;
0x00000200 raises the unsupported-version error whose message carries the
rendered version string "2.00" (hex digits via the source's
percent-format of the shifted and masked value). -/
theorem c6_version_gating :
    validate_vgm_version 0x101 = Except.ok () ∧
    validate_vgm_version 0x150 = Except.ok () ∧
    validate_vgm_version 0x200 = Except.error "VGM version 2.00 is not supported" ∧
    version_str 0x200 = "2.00" :=
  ⟨rfl, rfl, rfl, rfl⟩

/-- C9: a buffer carrying the magic but shorter than the 0x38-byte fixed
header region makes some header read come back short, `struct.unpack` raises,
and construction fails with the truncated-header error: no metadata map (and
in particular no zero-filled or partial field value) is ever produced. -/
theorem c9_truncated_header_raises (buf : List Nat) (fuel : Nat)
    (hmagic : buf.take 4 = vgm_magic_number) (hlen : buf.length < 0x38) :
    parse_metadata buf = none ∧ parseFile buf fuel = PResult.err PErr.structError := by
  have hfl : fieldLen buf 0x34 4 ≠ 4 := by
    simp only [fieldLen, bufRead, List.length_take, List.length_drop]
    omega
  have hc : ¬ metadataFieldsOk buf := fun hc =>
    hfl hc.2.2.2.2.2.2.2.2.2.2.2.2.2
  have hm : parse_metadata buf = none := by
    unfold parse_metadata parseMetadataSt
    rw [if_neg hc]
  refine ⟨hm, ?_⟩
  simp [parseFile, validateVgmDataSt, bufRead_zero, hmagic, hm]

/-- C9 witness: the 4-byte buffer holding just the magic. -/
theorem c9_witness :
    (([0x56, 0x67, 0x6d, 0x20] : List Nat).take 4 = vgm_magic_number ∧
      ([0x56, 0x67, 0x6d, 0x20] : List Nat).length < 0x38) ∧
    (parse_metadata [0x56, 0x67, 0x6d, 0x20] = none ∧
      parseFile [0x56, 0x67, 0x6d, 0x20] 5 = PResult.err PErr.structError) :=
  ⟨⟨by decide, by decide⟩,
    c9_truncated_header_raises [0x56, 0x67, 0x6d, 0x20] 5 (by decide) (by decide)⟩

/-- C10: each decode sub-step (container validation, metadata decode, GD3
decode, command-stream decode) leaves the shared cursor where it found it on
normal completion — the source's save/seek-back discipline. -/
theorem c10_cursor_save_restore (buf : List Nat) (pos0 : Nat) :
    ((validateVgmDataSt buf pos0).1 = Except.ok () →
      (validateVgmDataSt buf pos0).2 = pos0) ∧
    (∀ m, (parseMetadataSt buf pos0).1 = some m →
      (parseMetadataSt buf pos0).2 = pos0) ∧
    (∀ g gd, (parseGd3St buf g pos0).1 = Except.ok gd →
      (parseGd3St buf g pos0).2 = pos0) ∧
    (∀ v fuel cs db p,
      (parseCommandsSt buf v pos0 fuel).1 = ScanResult.done cs db p →
      (parseCommandsSt buf v pos0 fuel).2 = pos0) := by
  refine ⟨?_, ?_, ?_, ?_⟩
  · simp only [validateVgmDataSt]
    split_ifs <;> intro h
    · rfl
    · simp at h
  · intro m
    simp only [parseMetadataSt]
    split_ifs <;> intro h
    all_goals first | rfl | simp at h
  · intro g gd
    simp only [parseGd3St]
    split_ifs <;> intro h
    all_goals first | rfl | simp at h
  · intro v fuel cs db p
    rcases hr : parse_commands buf v fuel with _ | ⟨e, q⟩ | ⟨a, b, q⟩ <;>
      simp [parseCommandsSt, hr]

/-- C10 witness: on the synthetic file `wBuf` all four sub-steps complete
normally and return the caller's cursor position 77. -/
theorem c10_witness :
    ((validateVgmDataSt wBuf 77).1 = Except.ok () ∧
      (validateVgmDataSt wBuf 77).2 = 77) ∧
    ((parseMetadataSt wBuf 77).1 = some wP.metadata ∧
      (parseMetadataSt wBuf 77).2 = 77) ∧
    ((parseGd3St wBuf 0 77).1 = Except.ok wP.gd3_data ∧
      (parseGd3St wBuf 0 77).2 = 77) ∧
    ((parseCommandsSt wBuf 4 77 9).1 = ScanResult.done [⟨0x66, none⟩] none 57 ∧
      (parseCommandsSt wBuf 4 77 9).2 = 77) :=
  ⟨⟨by decide, (c10_cursor_save_restore wBuf 77).1 (by decide)⟩,
   ⟨by decide, (c10_cursor_save_restore wBuf 77).2.1 wP.metadata (by decide)⟩,
   ⟨by decide, (c10_cursor_save_restore wBuf 77).2.2.1 0 wP.gd3_data (by decide)⟩,
   ⟨by decide, (c10_cursor_save_restore wBuf 77).2.2.2 4 9 [⟨0x66, none⟩] none 57
      (by decide)⟩⟩

theorem bufRead_congr (buf₁ buf₂ : List Nat) (s pos n : Nat) (h : s ≤ pos)
    (hd : buf₁.drop s = buf₂.drop s) : bufRead buf₁ pos n = bufRead buf₂ pos n := by
  unfold bufRead
  have e1 : buf₁.drop pos = (buf₁.drop s).drop (pos - s) := by
    rw [List.drop_drop]
    congr 1
    omega
  have e2 : buf₂.drop pos = (buf₂.drop s).drop (pos - s) := by
    rw [List.drop_drop]
    congr 1
    omega
  rw [e1, e2, hd]

/-- The scan loop reads no byte below its start position: two buffers that
agree from position `s` onward scan identically from any `pos ≥ s`. -/
theorem parseCommandsLoop_congr (fuel : Nat) :
    ∀ (buf₁ buf₂ : List Nat) (s pos : Nat) (cmds : List Cmd)
      (db : Option (List Nat)), s ≤ pos → buf₁.drop s = buf₂.drop s →
      parseCommandsLoop buf₁ fuel pos cmds db =
        parseCommandsLoop buf₂ fuel pos cmds db := by
  induction fuel with
  | zero => intros; rfl
  | succ f ih =>
    intro buf₁ buf₂ s pos cmds db hs hd
    rw [parseCommandsLoop, parseCommandsLoop,
      bufRead_congr buf₁ buf₂ s pos 1 hs hd]
    cases hr : bufRead buf₂ pos 1 with
    | nil => exact ih _ _ s pos _ _ hs hd
    | cons c rest =>
      simp only
      rw [bufRead_congr buf₁ buf₂ s (pos + 1) 1 (by omega) hd,
        bufRead_congr buf₁ buf₂ s (pos + 1) 2 (by omega) hd,
        bufRead_congr buf₁ buf₂ s (pos + 1 + 2) 4 (by omega) hd,
        bufRead_congr buf₁ buf₂ s (pos + 1 + 2 + 4)
          (unpackLE (bufRead buf₂ (pos + 1 + 2) 4)) (by omega) hd,
        bufRead_congr buf₁ buf₂ s (pos + 1) 4 (by omega) hd]
      split_ifs <;>
        first
        | rfl
        | exact ih _ _ s _ _ _ (by omega) hd

/-- The decoder `parse_gd3` reads only bytes at or beyond the corrected offset
`g + 0x14`. -/
theorem parse_gd3_congr (buf₁ buf₂ : List Nat) (g : Nat)
    (hd : buf₁.drop (g + 0x14) = buf₂.drop (g + 0x14)) :
    parse_gd3 buf₁ g = parse_gd3 buf₂ g := by
  have h1 : bufRead buf₁ (g + 0x1c) 4 = bufRead buf₂ (g + 0x1c) 4 :=
    bufRead_congr buf₁ buf₂ (g + 0x14) (g + 0x1c) 4 (by omega) hd
  have h2 : ∀ n, bufRead buf₁ (g + 0x20) n = bufRead buf₂ (g + 0x20) n := fun n =>
    bufRead_congr buf₁ buf₂ (g + 0x14) (g + 0x20) n (by omega) hd
  simp only [parse_gd3, parseGd3St, h1, h2]

/-- C5: self-relative offsets.  The GD3 decoder's result depends only on the
bytes from the corrected absolute position `gd3_offset + 0x14` onward (the
stored value plus the field's own header position), and the command scan's
result depends only on the bytes from `vgm_data_offset + 0x34` onward; on
synthetic buffers whose bytes below those corrected positions are garbage,
both decoders still read their block placed exactly there. -/
theorem c5_self_relative_offsets :
    (∀ (buf₁ buf₂ : List Nat) (g : Nat),
      buf₁.drop (g + 0x14) = buf₂.drop (g + 0x14) →
      parse_gd3 buf₁ g = parse_gd3 buf₂ g) ∧
    (∀ (buf₁ buf₂ : List Nat) (v fuel : Nat),
      buf₁.drop (v + 0x34) = buf₂.drop (v + 0x34) →
      parse_commands buf₁ v fuel = parse_commands buf₂ v fuel) ∧
    parse_gd3 c5Gd3Buf 3 = Except.ok ⟨[], [], [], [], [], [], [], [], [], [], []⟩ ∧
    parse_commands c5CmdBuf 2 5 = ScanResult.done [⟨0x66, none⟩] none 55 := by
  refine ⟨parse_gd3_congr, ?_, by decide, by decide⟩
  intro buf₁ buf₂ v fuel hd
  exact parseCommandsLoop_congr fuel buf₁ buf₂ (v + 0x34) (v + 0x34) [] none
    le_rfl hd

/-- C5 witness: replacing the garbage below the corrected offsets leaves both
decoders' results unchanged. -/
theorem c5_witness :
    (c5Gd3Buf.drop (3 + 0x14) =
        (List.replicate 23 0 ++ c5Gd3Buf.drop 23).drop (3 + 0x14) ∧
      c5CmdBuf.drop (2 + 0x34) =
        (List.replicate 54 7 ++ [0x66]).drop (2 + 0x34)) ∧
    parse_gd3 c5Gd3Buf 3 =
      parse_gd3 (List.replicate 23 0 ++ c5Gd3Buf.drop 23) 3 ∧
    parse_commands c5CmdBuf 2 5 =
      parse_commands (List.replicate 54 7 ++ [0x66]) 2 5 :=
  ⟨⟨by decide, by decide⟩,
   c5_self_relative_offsets.1 c5Gd3Buf (List.replicate 23 0 ++ c5Gd3Buf.drop 23)
     3 (by decide),
   c5_self_relative_offsets.2.1 c5CmdBuf (List.replicate 54 7 ++ [0x66]) 2 5
     (by decide)⟩

/-- C7 counterexample: the claim says GD3 parsing fails on every payload with
other than exactly 11 terminators, but a payload with 12 terminators parses
fine — the twelfth field is simply ignored by the 11 dict lookups. -/
theorem c7_counterexample_twelve_terminators_accepted :
    (gd3FieldsOf c7Buf 0).length = 12 ∧
    parse_gd3 c7Buf 0 = Except.ok ⟨[], [], [], [], [], [], [], [], [], [], []⟩ :=
  ⟨by decide, by decide⟩

/-- C7 amended: provided the 4-byte length read succeeds, GD3 parsing fails
with the index error exactly when the payload yields fewer than 11 delimited
fields, and succeeds — assigning the first 11 fields in the fixed dict order —
whenever at least 11 are present (more than 11 is not an error). -/
theorem c7_amended_gd3_field_count (buf : List Nat) (g : Nat)
    (hlen : (bufRead buf (g + 0x1c) 4).length = 4) :
    ((gd3FieldsOf buf g).length < 11 →
      parse_gd3 buf g = Except.error PErr.indexError) ∧
    (11 ≤ (gd3FieldsOf buf g).length →
      parse_gd3 buf g = Except.ok (gd3Assemble (gd3FieldsOf buf g))) := by
  simp only [parse_gd3, parseGd3St, gd3FieldsOf, gd3Assemble]
  rw [if_neg (by omega)]
  constructor <;> intro h
  · rw [if_neg (by omega)]
  · rw [if_pos h]

/-- C7 amended witness: a payload with exactly 11 terminators parses into the
11 fields. -/
theorem c7_witness :
    ((bufRead c7WBuf (0 + 0x1c) 4).length = 4 ∧
      11 ≤ (gd3FieldsOf c7WBuf 0).length) ∧
    parse_gd3 c7WBuf 0 = Except.ok (gd3Assemble (gd3FieldsOf c7WBuf 0)) :=
  ⟨⟨by decide, by decide⟩,
    (c7_amended_gd3_field_count c7WBuf 0 (by decide)).2 (by decide)⟩

/-- C8: one scan iteration at a 0x67 opcode (with the 4-byte size readable
and the declared payload fully available) skips the 2 compatibility/type
bytes, reads the 4-byte little-endian length, consumes exactly that many
payload bytes (the cursor lands at `pos + 7 + L`), appends no command record,
and overwrites the stored data block with this payload — so when several 0x67
blocks occur, the one stored at the end is the last. -/
theorem c8_data_block_extraction (buf : List Nat) (fuel pos : Nat)
    (cmds : List Cmd) (db : Option (List Nat))
    (hop : bufRead buf pos 1 = [0x67])
    (hsz : (bufRead buf (pos + 3) 4).length = 4)
    (hbl : (bufRead buf (pos + 7) (unpackLE (bufRead buf (pos + 3) 4))).length =
      unpackLE (bufRead buf (pos + 3) 4)) :
    parseCommandsLoop buf (fuel + 1) pos cmds db =
      parseCommandsLoop buf fuel (pos + 7 + unpackLE (bufRead buf (pos + 3) 4))
        cmds (some (bufRead buf (pos + 7) (unpackLE (bufRead buf (pos + 3) 4)))) := by
  rw [parseCommandsLoop, hop]
  norm_num [hsz, hbl]

/-- C8 witness: on the two-data-block stream, the step at the second 0x67
(position 61) replaces the first stored block with the second one. -/
theorem c8_witness :
    (bufRead c8Buf 61 1 = [0x67] ∧ (bufRead c8Buf (61 + 3) 4).length = 4 ∧
      (bufRead c8Buf (61 + 7) (unpackLE (bufRead c8Buf (61 + 3) 4))).length =
        unpackLE (bufRead c8Buf (61 + 3) 4)) ∧
    parseCommandsLoop c8Buf (2 + 1) 61 [] (some [0xaa, 0xbb]) =
      parseCommandsLoop c8Buf 2 (61 + 7 + unpackLE (bufRead c8Buf (61 + 3) 4))
        [] (some (bufRead c8Buf (61 + 7) (unpackLE (bufRead c8Buf (61 + 3) 4)))) :=
  ⟨⟨by decide, by decide, by decide⟩,
    c8_data_block_extraction c8Buf 2 61 [] (some [0xaa, 0xbb])
      (by decide) (by decide) (by decide)⟩

theorem packLE_length (n v : Nat) : (packLE n v).length = n := by
  induction n generalizing v with
  | zero => rfl
  | succ k ih => simp [packLE, ih]

theorem unpackLE_packLE (n v : Nat) (h : v < 2 ^ (8 * n)) :
    unpackLE (packLE n v) = v := by
  induction n generalizing v with
  | zero =>
    simp only [Nat.mul_zero, pow_zero, Nat.lt_one_iff] at h
    simp [packLE, unpackLE, h]
  | succ k ih =>
    have hp : (2 : Nat) ^ (8 * (k + 1)) = 2 ^ (8 * k) * 256 := by ring
    rw [hp] at h
    have hv : v / 256 < 2 ^ (8 * k) := by omega
    simp only [packLE, unpackLE, ih (v / 256) hv]
    omega

theorem unpackLE_lt (bs : List Nat) (h : isBytes bs) :
    unpackLE bs < 2 ^ (8 * bs.length) := by
  induction bs with
  | nil => simp [unpackLE]
  | cons b rest ih =>
    have hb : b < 256 := h b (by simp)
    have hr : isBytes rest := fun x hx => h x (by simp [hx])
    have hu := ih hr
    simp only [unpackLE, List.length_cons]
    have hp : (2 : Nat) ^ (8 * (rest.length + 1)) = 2 ^ (8 * rest.length) * 256 := by
      ring
    rw [hp]
    omega

theorem isBytes_bufRead (buf : List Nat) (pos n : Nat) (h : isBytes buf) :
    isBytes (bufRead buf pos n) := fun b hb =>
  h b (List.drop_subset pos buf (List.take_subset n (buf.drop pos) hb))

theorem readLE_lt (buf : List Nat) (off n : Nat) (hB : isBytes buf)
    (hl : fieldLen buf off n = n) : readLE buf off n < 2 ^ (8 * n) := by
  have hu := unpackLE_lt (bufRead buf off n) (isBytes_bufRead buf off n hB)
  unfold fieldLen at hl
  unfold readLE
  rw [hl] at hu
  exact hu

/-- A metadata map read back from genuine bytes satisfies the range
constraints `save` needs. -/
theorem parse_metadata_MWF (buf : List Nat) (m : Metadata) (hB : isBytes buf)
    (hm : parse_metadata buf = some m) : MWF m := by
  unfold parse_metadata parseMetadataSt at hm
  by_cases hok : metadataFieldsOk buf
  · rw [if_pos hok] at hm
    obtain ⟨h1, h2, h3, h4, h5, h6, h7, h8, h9, h10, h11, h12, h13, h14⟩ := hok
    obtain rfl : _ = m := Option.some.inj hm
    refine ⟨?_, readLE_lt buf _ _ hB h1, readLE_lt buf _ _ hB h2,
      readLE_lt buf _ _ hB h3, readLE_lt buf _ _ hB h4, readLE_lt buf _ _ hB h5,
      readLE_lt buf _ _ hB h6, readLE_lt buf _ _ hB h7, readLE_lt buf _ _ hB h8,
      readLE_lt buf _ _ hB h9, readLE_lt buf _ _ hB h10, readLE_lt buf _ _ hB h11,
      readLE_lt buf _ _ hB h12, readLE_lt buf _ _ hB h13, readLE_lt buf _ _ hB h14⟩
    have hlen : 8 ≤ buf.length := by
      simp only [fieldLen, bufRead, List.length_take, List.length_drop] at h1
      omega
    simp only [bufRead, List.drop_zero, List.length_take]
    omega
  · rw [if_neg hok] at hm
    exact absurd hm (by simp)

theorem writeAt_split (pre suf bs : List Nat) (off : Nat) (hoff : off = pre.length) :
    writeAt (pre ++ suf) off bs = pre ++ bs ++ suf.drop bs.length := by
  subst hoff
  unfold writeAt
  rw [List.take_left]
  have h0 : pre.length - (pre ++ suf).length = 0 := by
    simp [List.length_append]
  rw [h0, List.drop_append]
  simp

theorem writeAt_into_zeros (pre bs : List Nat) (r off : Nat)
    (hoff : off = pre.length) :
    writeAt (pre ++ List.replicate r 0) off bs =
      (pre ++ bs) ++ List.replicate (r - bs.length) 0 := by
  rw [writeAt_split pre _ bs off hoff, List.drop_replicate]

/-- One step of the `save` field loop on an in-range value writes the field's
little-endian bytes at the end of what is already written. -/
theorem writeFields_step (pre : List Nat) (r off n v : Nat)
    (rest : List (Nat × Nat × Nat)) (hoff : off = pre.length)
    (hv : v < 2 ^ (8 * n)) :
    writeFields (pre ++ List.replicate r 0) ((off, n, v) :: rest) =
      writeFields ((pre ++ packLE n v) ++ List.replicate (r - n) 0) rest := by
  have hbs : packField n v = some (packLE n v) := if_pos hv
  rw [writeFields, hbs]
  show writeFields (writeAt (pre ++ List.replicate r 0) off (packLE n v)) rest = _
  rw [writeAt_into_zeros pre _ r off hoff, packLE_length]

/-- Closed form of `save`: for an in-range metadata map the output is the
0x38-byte header image, then the command bytes at 0x38, then whatever is left
of the zero pre-fill beyond the command bytes. -/
theorem save_eq (m : Metadata) (cmds : List Cmd) (hw : MWF m) :
    save m cmds =
      some (headerBytes m ++ (encodeCmds cmds ++
        List.replicate (8 - (encodeCmds cmds).length) 0)) := by
  obtain ⟨hid, h1, h2, h3, h4, h5, h6, h7, h8, h9, h10, h11, h12, h13, h14⟩ := hw
  simp only [save, fieldWrites]
  have e0 : writeAt [] 0 (List.replicate 0x40 0) = List.replicate 0x40 0 := by
    simp [writeAt]
  have e1 : writeAt (List.replicate 0x40 0) 0x00 m.vgm_ident =
      m.vgm_ident ++ List.replicate 60 0 := by
    simpa [hid] using writeAt_into_zeros [] m.vgm_ident 0x40 0 rfl
  rw [e0, e1]
  rw [writeFields_step m.vgm_ident 60 0x04 4 m.eof_offset _ hid.symm h1]
  simp only [Nat.reduceSub]
  rw [writeFields_step _ 56 0x08 4 m.version _ (by simp [packLE_length, hid]) h2]
  simp only [Nat.reduceSub]
  rw [writeFields_step _ 52 0x0c 4 m.sn76489_clock _ (by simp [packLE_length, hid]) h3]
  simp only [Nat.reduceSub]
  rw [writeFields_step _ 48 0x10 4 m.ym2413_clock _ (by simp [packLE_length, hid]) h4]
  simp only [Nat.reduceSub]
  rw [writeFields_step _ 44 0x14 4 m.gd3_offset _ (by simp [packLE_length, hid]) h5]
  simp only [Nat.reduceSub]
  rw [writeFields_step _ 40 0x18 4 m.total_samples _ (by simp [packLE_length, hid]) h6]
  simp only [Nat.reduceSub]
  rw [writeFields_step _ 36 0x1c 4 m.loop_offset _ (by simp [packLE_length, hid]) h7]
  simp only [Nat.reduceSub]
  rw [writeFields_step _ 32 0x20 4 m.loop_samples _ (by simp [packLE_length, hid]) h8]
  simp only [Nat.reduceSub]
  rw [writeFields_step _ 28 0x24 4 m.rate _ (by simp [packLE_length, hid]) h9]
  simp only [Nat.reduceSub]
  rw [writeFields_step _ 24 0x28 2 m.sn76489_feedback _ (by simp [packLE_length, hid]) h10]
  simp only [Nat.reduceSub]
  rw [writeFields_step _ 22 0x2a 1 m.sn76489_shift_register_width _
    (by simp [packLE_length, hid]) h11]
  simp only [Nat.reduceSub]
  rw [show (List.replicate 21 0 : List Nat) = [0] ++ List.replicate 20 0 from rfl,
    ← List.append_assoc]
  rw [writeFields_step _ 20 0x2c 4 m.ym2612_clock _ (by simp [packLE_length, hid]) h12]
  simp only [Nat.reduceSub]
  rw [writeFields_step _ 16 0x30 4 m.ym2151_clock _ (by simp [packLE_length, hid]) h13]
  simp only [Nat.reduceSub]
  rw [writeFields_step _ 12 0x34 4 m.vgm_data_offset _ (by simp [packLE_length, hid]) h14]
  simp only [Nat.reduceSub]
  rw [writeFields]
  simp only [Option.map_some']
  rw [writeAt_into_zeros _ (encodeCmds cmds) 8 0x38 (by simp [packLE_length, hid])]
  simp [headerBytes, List.append_assoc]

theorem bufRead_skip (a b : List Nat) (off n : Nat) (h : a.length ≤ off) :
    bufRead (a ++ b) off n = bufRead b (off - a.length) n := by
  unfold bufRead
  have e : (a ++ b).drop off = b.drop (off - a.length) := by
    conv_lhs => rw [show off = a.length + (off - a.length) from by omega]
    exact List.drop_append ..
  rw [e]

theorem bufRead_head (x post : List Nat) (n : Nat) (hn : x.length = n) :
    bufRead (x ++ post) 0 n = x := by
  subst hn
  unfold bufRead
  rw [List.drop_zero, List.take_left]

theorem bufRead_cons_skip (x : Nat) (b : List Nat) (off n : Nat) (h : 1 ≤ off) :
    bufRead (x :: b) off n = bufRead b (off - 1) n := by
  have := bufRead_skip [x] b off n (by simpa using h)
  simpa using this

/-- The header decoder reads the header image `save` lays out back into the
identical metadata map, whatever bytes follow the header region. -/
theorem parse_metadata_header (m : Metadata) (tail : List Nat) (hw : MWF m) :
    parse_metadata (headerBytes m ++ tail) = some m := by
  obtain ⟨hid, h1, h2, h3, h4, h5, h6, h7, h8, h9, h10, h11, h12, h13, h14⟩ := hw
  have u1 := unpackLE_packLE 4 m.eof_offset h1
  have u2 := unpackLE_packLE 4 m.version h2
  have u3 := unpackLE_packLE 4 m.sn76489_clock h3
  have u4 := unpackLE_packLE 4 m.ym2413_clock h4
  have u5 := unpackLE_packLE 4 m.gd3_offset h5
  have u6 := unpackLE_packLE 4 m.total_samples h6
  have u7 := unpackLE_packLE 4 m.loop_offset h7
  have u8 := unpackLE_packLE 4 m.loop_samples h8
  have u9 := unpackLE_packLE 4 m.rate h9
  have u10 := unpackLE_packLE 2 m.sn76489_feedback h10
  have u11 := unpackLE_packLE 1 m.sn76489_shift_register_width h11
  have u12 := unpackLE_packLE 4 m.ym2612_clock h12
  have u13 := unpackLE_packLE 4 m.ym2151_clock h13
  have u14 := unpackLE_packLE 4 m.vgm_data_offset h14
  unfold parse_metadata parseMetadataSt
  have hok : metadataFieldsOk (headerBytes m ++ tail) := by
    refine ⟨?_, ?_, ?_, ?_, ?_, ?_, ?_, ?_, ?_, ?_, ?_, ?_, ?_, ?_⟩ <;>
      simp [fieldLen, headerBytes, List.append_assoc, bufRead_skip, bufRead_head,
        bufRead_cons_skip, packLE_length, hid]
  rw [if_pos hok]
  simp [readLE, headerBytes, List.append_assoc, bufRead_skip, bufRead_head,
    bufRead_cons_skip, packLE_length, hid,
    u1, u2, u3, u4, u5, u6, u7, u8, u9, u10, u11, u12, u13, u14]

/-- C4: serializing a parsed metadata map with `save` and decoding the result
with the header decoder recovers the identical map — raw bytes for the
identifier, fixed-width little-endian integers for the rest, the same Format
Table entry driving both directions. -/
theorem c4_header_round_trip (buf out : List Nat) (m : Metadata)
    (cmds : List Cmd) (hB : isBytes buf) (hm : parse_metadata buf = some m)
    (hs : save m cmds = some out) :
    parse_metadata out = some m := by
  have hw := parse_metadata_MWF buf m hB hm
  have h2 := save_eq m cmds hw
  rw [hs] at h2
  rw [Option.some.inj h2]
  exact parse_metadata_header m
    (encodeCmds cmds ++ List.replicate (8 - (encodeCmds cmds).length) 0) hw

set_option maxRecDepth 4096 in
/-- C4 witness: the synthetic file `wBuf` and its saved image. -/
theorem c4_witness :
    (isBytes wBuf ∧ parse_metadata wBuf = some wP.metadata ∧
      save wP.metadata wP.command_list = some wS) ∧
    parse_metadata wS = some wP.metadata :=
  ⟨⟨by decide, by decide, by decide⟩,
    c4_header_round_trip wBuf wS wP.metadata wP.command_list
      (by decide) (by decide) (by decide)⟩


theorem bufRead_short (buf : List Nat) (pos n : Nat)
    (h : (bufRead buf pos n).length ≠ n) :
    buf.length ≤ pos + (bufRead buf pos n).length := by
  have h1 : (bufRead buf pos n).length = min n (buf.length - pos) := by
    simp [bufRead]
  rw [h1] at h
  rw [h1]
  omega

theorem drop_shift (buf : List Nat) (pos k : Nat) :
    buf.drop (pos + k) = (buf.drop pos).drop k := by
  rw [List.drop_drop]

/-- Any suffix of records a terminating scan run appends is well-formed: the
loop only exits through the 0x66 branch, and a short operand read leaves the
cursor at end of buffer, from where the loop can never return. -/
theorem scan_wf (fuel : Nat) : ∀ (buf : List Nat) (pos : Nat) (acc : List Cmd)
    (db db' : Option (List Nat)) (all : List Cmd) (p : Nat),
    parseCommandsLoop buf fuel pos acc db = .done all db' p →
    ∃ suf, all = acc ++ suf ∧ CmdsWF suf := by
  induction fuel with
  | zero =>
    intro buf pos acc db db' all p h
    exact absurd h (by simp [parseCommandsLoop])
  | succ f ih =>
    intro buf pos acc db db' all p h
    rw [parseCommandsLoop] at h
    split at h
    · exact ih _ _ _ _ _ _ _ h
    · rename_i c rest heq
      split_ifs at h with h1 h2 h3 h4 h5 h6 h7 h8
      · -- 0x4f / 0x50, operand 1 byte
        by_cases hd : (bufRead buf (pos + 1) 1).length = 1
        · obtain ⟨suf, hsuf, hwf⟩ := ih _ _ _ _ _ _ _ h
          refine ⟨⟨c, some (bufRead buf (pos + 1) 1)⟩ :: suf, ?_, ?_⟩
          · rw [hsuf, List.append_assoc]
            rfl
          · exact CmdsWF.one c _ suf h1 hd hwf
        · have hle := bufRead_short buf (pos + 1) 1 hd
          rw [scan_hang_of_eof buf f _ _ _ (by omega)] at h
          simp at h
      · -- 0x51-0x54, operand 2 bytes
        by_cases hd : (bufRead buf (pos + 1) 2).length = 2
        · obtain ⟨suf, hsuf, hwf⟩ := ih _ _ _ _ _ _ _ h
          refine ⟨⟨c, some (bufRead buf (pos + 1) 2)⟩ :: suf, ?_, ?_⟩
          · rw [hsuf, List.append_assoc]
            rfl
          · exact CmdsWF.two c _ suf (by tauto) hd hwf
        · have hle := bufRead_short buf (pos + 1) 2 hd
          rw [scan_hang_of_eof buf f _ _ _ (by omega)] at h
          simp at h
      · -- 0x61, operand 2 bytes
        by_cases hd : (bufRead buf (pos + 1) 2).length = 2
        · obtain ⟨suf, hsuf, hwf⟩ := ih _ _ _ _ _ _ _ h
          refine ⟨⟨c, some (bufRead buf (pos + 1) 2)⟩ :: suf, ?_, ?_⟩
          · rw [hsuf, List.append_assoc]
            rfl
          · exact CmdsWF.two c _ suf (by tauto) hd hwf
        · have hle := bufRead_short buf (pos + 1) 2 hd
          rw [scan_hang_of_eof buf f _ _ _ (by omega)] at h
          simp at h
      · -- 0x66: record appended, loop exits
        subst h5
        injection h with ha hb hc2
        exact ⟨[⟨0x66, none⟩], ha.symm, CmdsWF.last⟩
      · -- 0x62 / 0x63: zero-operand record
        obtain ⟨suf, hsuf, hwf⟩ := ih _ _ _ _ _ _ _ h
        refine ⟨⟨c, none⟩ :: suf, ?_, ?_⟩
        · rw [hsuf, List.append_assoc]
          rfl
        · exact CmdsWF.zero c suf (by tauto) hwf
      · -- 0x67 data block: either a full size read and no record appended,
        -- or a short size read raising struct.error (not a normal return)
        have hz : (if (bufRead buf (pos + 1 + 2) 4).length = 4 then
              parseCommandsLoop buf f
                (pos + 1 + 2 + 4 + (bufRead buf (pos + 1 + 2 + 4)
                  (unpackLE (bufRead buf (pos + 1 + 2) 4))).length)
                acc
                (some (bufRead buf (pos + 1 + 2 + 4)
                  (unpackLE (bufRead buf (pos + 1 + 2) 4))))
            else ScanResult.err PErr.structError
              (pos + 1 + 2 + (bufRead buf (pos + 1 + 2) 4).length)) =
            ScanResult.done all db' p := h
        split at hz
        · exact ih _ _ _ _ _ _ _ hz
        · simp at hz
      · -- 0x70-0x8f: zero-operand record
        obtain ⟨suf, hsuf, hwf⟩ := ih _ _ _ _ _ _ _ h
        refine ⟨⟨c, none⟩ :: suf, ?_, ?_⟩
        · rw [hsuf, List.append_assoc]
          rfl
        · exact CmdsWF.zero c suf (Or.inr (Or.inr h7)) hwf
      · -- 0xe0, operand 4 bytes
        by_cases hd : (bufRead buf (pos + 1) 4).length = 4
        · obtain ⟨suf, hsuf, hwf⟩ := ih _ _ _ _ _ _ _ h
          subst h8
          refine ⟨⟨0xe0, some (bufRead buf (pos + 1) 4)⟩ :: suf, ?_, ?_⟩
          · rw [hsuf, List.append_assoc]
            rfl
          · exact CmdsWF.four _ suf hd hwf
        · have hle := bufRead_short buf (pos + 1) 4 hd
          rw [scan_hang_of_eof buf f _ _ _ (by omega)] at h
          simp at h
      · -- unknown byte: consumed, nothing appended
        exact ih _ _ _ _ _ _ _ h


/-- Rescanning the byte image `encodeCmds l` of a well-formed command list
reproduces exactly the records of `l` (or runs out of fuel): each record's
opcode selects the branch that reads back precisely its operand bytes, and
the final 0x66 record stops the scan. -/
theorem replay (l : List Cmd) (hwf : CmdsWF l) :
    ∀ (fuel : Nat) (buf : List Nat) (pos : Nat) (acc : List Cmd)
      (db : Option (List Nat)) (tail : List Nat),
      buf.drop pos = encodeCmds l ++ tail →
      parseCommandsLoop buf fuel pos acc db = .hang ∨
      parseCommandsLoop buf fuel pos acc db =
        .done (acc ++ l) db (pos + (encodeCmds l).length) := by
  induction hwf with
  | last =>
    intro fuel buf pos acc db tail hdrop
    match fuel with
    | 0 => exact Or.inl rfl
    | f + 1 =>
      right
      have hr : bufRead buf pos 1 = [0x66] := by
        unfold bufRead
        rw [hdrop]
        rfl
      rw [parseCommandsLoop, hr]
      norm_num [encodeCmds, encodeCmd]
  | one c d rest hc hd hrest ih =>
    intro fuel buf pos acc db tail hdrop
    match fuel with
    | 0 => exact Or.inl rfl
    | f + 1 =>
      obtain ⟨x, rfl⟩ : ∃ x, d = [x] := by
        cases d with
        | nil => simp at hd
        | cons a t =>
          cases t with
          | nil => exact ⟨a, rfl⟩
          | cons b t2 => simp at hd
      have henc : encodeCmds (⟨c, some [x]⟩ :: rest) = c :: x :: encodeCmds rest := by
        simp [encodeCmds, encodeCmd]
      rw [henc] at hdrop
      have hr : bufRead buf pos 1 = [c] := by
        unfold bufRead
        rw [hdrop]
        rfl
      have hr2 : bufRead buf (pos + 1) 1 = [x] := by
        unfold bufRead
        rw [drop_shift, hdrop]
        rfl
      have hdrop2 : buf.drop (pos + 2) = encodeCmds rest ++ tail := by
        rw [drop_shift, hdrop]
        rfl
      have hstep : parseCommandsLoop buf (f + 1) pos acc db =
          parseCommandsLoop buf f (pos + 2) (acc ++ [⟨c, some [x]⟩]) db := by
        rcases hc with rfl | rfl <;>
          · rw [parseCommandsLoop, hr]
            norm_num [hr2]
      rw [hstep]
      rcases ih f buf (pos + 2) (acc ++ [⟨c, some [x]⟩]) db tail hdrop2 with hh | hdone
      · exact Or.inl hh
      · right
        rw [hdone]
        congr 1
        · simp
        · rw [henc]
          simp only [List.length_cons]
          omega
  | two c d rest hc hd hrest ih =>
    intro fuel buf pos acc db tail hdrop
    match fuel with
    | 0 => exact Or.inl rfl
    | f + 1 =>
      obtain ⟨x, y, rfl⟩ : ∃ x y, d = [x, y] := by
        cases d with
        | nil => simp at hd
        | cons a t =>
          cases t with
          | nil => simp at hd
          | cons b t2 =>
            cases t2 with
            | nil => exact ⟨a, b, rfl⟩
            | cons e t3 => simp at hd
      have henc : encodeCmds (⟨c, some [x, y]⟩ :: rest) =
          c :: x :: y :: encodeCmds rest := by
        simp [encodeCmds, encodeCmd]
      rw [henc] at hdrop
      have hr : bufRead buf pos 1 = [c] := by
        unfold bufRead
        rw [hdrop]
        rfl
      have hr2 : bufRead buf (pos + 1) 2 = [x, y] := by
        unfold bufRead
        rw [drop_shift, hdrop]
        rfl
      have hdrop2 : buf.drop (pos + 3) = encodeCmds rest ++ tail := by
        rw [drop_shift, hdrop]
        rfl
      have hstep : parseCommandsLoop buf (f + 1) pos acc db =
          parseCommandsLoop buf f (pos + 3) (acc ++ [⟨c, some [x, y]⟩]) db := by
        rcases hc with rfl | rfl | rfl | rfl | rfl <;>
          · rw [parseCommandsLoop, hr]
            norm_num [hr2]
      rw [hstep]
      rcases ih f buf (pos + 3) (acc ++ [⟨c, some [x, y]⟩]) db tail hdrop2 with hh | hdone
      · exact Or.inl hh
      · right
        rw [hdone]
        congr 1
        · simp
        · rw [henc]
          simp only [List.length_cons]
          omega
  | zero c rest hc hrest ih =>
    intro fuel buf pos acc db tail hdrop
    match fuel with
    | 0 => exact Or.inl rfl
    | f + 1 =>
      have henc : encodeCmds (⟨c, none⟩ :: rest) = c :: encodeCmds rest := by
        simp [encodeCmds, encodeCmd]
      rw [henc] at hdrop
      have hr : bufRead buf pos 1 = [c] := by
        unfold bufRead
        rw [hdrop]
        rfl
      have hdrop2 : buf.drop (pos + 1) = encodeCmds rest ++ tail := by
        rw [drop_shift, hdrop]
        rfl
      have hstep : parseCommandsLoop buf (f + 1) pos acc db =
          parseCommandsLoop buf f (pos + 1) (acc ++ [⟨c, none⟩]) db := by
        rcases hc with rfl | rfl | hrange
        · rw [parseCommandsLoop, hr]
          norm_num
        · rw [parseCommandsLoop, hr]
          norm_num
        · have k1 : c ≠ 0x4f := by omega
          have k2 : c ≠ 0x50 := by omega
          have k3 : c ≠ 0x51 := by omega
          have k4 : c ≠ 0x52 := by omega
          have k5 : c ≠ 0x53 := by omega
          have k6 : c ≠ 0x54 := by omega
          have k7 : c ≠ 0x61 := by omega
          have k8 : c ≠ 0x62 := by omega
          have k9 : c ≠ 0x63 := by omega
          have k10 : c ≠ 0x66 := by omega
          have k11 : c ≠ 0x67 := by omega
          rw [parseCommandsLoop, hr]
          simp only [k1, k2, k3, k4, k5, k6, k7, k8, k9, k10, k11, hrange.1,
            hrange.2, and_self, or_self, false_or, or_false, if_false, if_true,
            ite_false, ite_true]
      rw [hstep]
      rcases ih f buf (pos + 1) (acc ++ [⟨c, none⟩]) db tail hdrop2 with hh | hdone
      · exact Or.inl hh
      · right
        rw [hdone]
        congr 1
        · simp
        · rw [henc]
          simp only [List.length_cons]
          omega
  | four d rest hd hrest ih =>
    intro fuel buf pos acc db tail hdrop
    match fuel with
    | 0 => exact Or.inl rfl
    | f + 1 =>
      obtain ⟨x, y, z, w, rfl⟩ : ∃ x y z w, d = [x, y, z, w] := by
        cases d with
        | nil => simp at hd
        | cons a t =>
          cases t with
          | nil => simp at hd
          | cons b t2 =>
            cases t2 with
            | nil => simp at hd
            | cons e t3 =>
              cases t3 with
              | nil => simp at hd
              | cons g t4 =>
                cases t4 with
                | nil => exact ⟨a, b, e, g, rfl⟩
                | cons k t5 => simp at hd
      have henc : encodeCmds (⟨0xe0, some [x, y, z, w]⟩ :: rest) =
          0xe0 :: x :: y :: z :: w :: encodeCmds rest := by
        simp [encodeCmds, encodeCmd]
      rw [henc] at hdrop
      have hr : bufRead buf pos 1 = [0xe0] := by
        unfold bufRead
        rw [hdrop]
        rfl
      have hr2 : bufRead buf (pos + 1) 4 = [x, y, z, w] := by
        unfold bufRead
        rw [drop_shift, hdrop]
        rfl
      have hdrop2 : buf.drop (pos + 5) = encodeCmds rest ++ tail := by
        rw [drop_shift, hdrop]
        rfl
      have hstep : parseCommandsLoop buf (f + 1) pos acc db =
          parseCommandsLoop buf f (pos + 5) (acc ++ [⟨0xe0, some [x, y, z, w]⟩]) db := by
        rw [parseCommandsLoop, hr]
        norm_num [hr2]
      rw [hstep]
      rcases ih f buf (pos + 5) (acc ++ [⟨0xe0, some [x, y, z, w]⟩]) db tail hdrop2 with hh | hdone
      · exact Or.inl hh
      · right
        rw [hdone]
        congr 1
        · simp
        · rw [henc]
          simp only [List.length_cons]
          omega


/-- Inverting a successful construction: the metadata map is the one the
header decoder produced, and the command scan ended normally with the
instance's command list and data block. -/
theorem parseFile_ok (buf : List Nat) (fuel : Nat) (P : Parsed)
    (h : parseFile buf fuel = .ok P) :
    parse_metadata buf = some P.metadata ∧
    ∃ p, parse_commands buf P.metadata.vgm_data_offset fuel =
      ScanResult.done P.command_list P.data_block p := by
  unfold parseFile at h
  split at h
  · simp at h
  · split at h
    · simp at h
    · rename_i m hm
      split at h
      · simp at h
      · split at h
        · simp at h
        · rename_i g hg
          split at h
          · simp at h
          · simp at h
          · rename_i cs db p hscan
            injection h with h2
            subst h2
            exact ⟨hm, p, hscan⟩

/-- C2 amended: for a file with no data block whose stored data offset is 4
(so the corrected data start 0x34 + 4 = 0x38 coincides with where `save`
puts the commands), a successful re-parse of the saved output recovers a
command list of the same length and opcode sequence. -/
theorem c2_amended_round_trip (buf out : List Nat) (f g : Nat) (P Q : Parsed)
    (hB : isBytes buf)
    (hP : parseFile buf f = PResult.ok P)
    (hvdo : P.metadata.vgm_data_offset = 4)
    (hdb : P.data_block = none)
    (hS : save P.metadata P.command_list = some out)
    (hQ : parseFile out g = PResult.ok Q) :
    Q.command_list.length = P.command_list.length ∧
    Q.command_list.map Cmd.command = P.command_list.map Cmd.command := by
  obtain ⟨hm, p, hscan⟩ := parseFile_ok buf f P hP
  obtain ⟨hmQ, q, hscanQ⟩ := parseFile_ok out g Q hQ
  have hw := parse_metadata_MWF buf P.metadata hB hm
  have h2 := save_eq P.metadata P.command_list hw
  rw [hS] at h2
  have hout := Option.some.inj h2
  have hmo : parse_metadata out = some P.metadata := by
    rw [hout]
    exact parse_metadata_header P.metadata _ hw
  have hQm : Q.metadata = P.metadata := by
    rw [hmQ] at hmo
    exact Option.some.inj hmo
  unfold parse_commands at hscan
  obtain ⟨suf, hsuf, hwfsuf⟩ := scan_wf f buf
    (P.metadata.vgm_data_offset + 0x34) [] none P.data_block
    P.command_list p hscan
  rw [List.nil_append] at hsuf
  have hwf : CmdsWF P.command_list := hsuf ▸ hwfsuf
  have hlh : (headerBytes P.metadata).length = 0x38 := by
    simp [headerBytes, packLE_length, hw.1]
  have hdropS : out.drop 0x38 = encodeCmds P.command_list ++
      List.replicate (8 - (encodeCmds P.command_list).length) 0 := by
    rw [hout, show (0x38 : Nat) = (headerBytes P.metadata).length from hlh.symm,
      List.drop_left]
  have hrep := replay P.command_list hwf g out 0x38 [] none _ hdropS
  unfold parse_commands at hscanQ
  rw [hQm, hvdo] at hscanQ
  norm_num at hscanQ
  rcases hrep with hh | hdone
  · rw [hh] at hscanQ
    simp at hscanQ
  · rw [hdone] at hscanQ
    injection hscanQ with e1 e2 e3
    rw [List.nil_append] at e1
    rw [← e1]
    exact ⟨rfl, rfl⟩

set_option maxRecDepth 8192 in
/-- C2 counterexample: `c2Buf` parses successfully, carries no data block,
and has its command stream at 0x5a (`vgm_data_offset = 0x26`); `save` writes
the commands at 0x38 instead and emits nothing beyond the pre-fill, so
re-parsing the saved output does not yield a command list at all — the GD3
length read runs off the end of the 64-byte output and raises. -/
theorem c2_counterexample_save_relocates_commands :
    parseFile c2Buf 9 = PResult.ok c2P ∧
    c2P.data_block = none ∧
    save c2P.metadata c2P.command_list = some c2S ∧
    parseFile c2S 9 = PResult.err PErr.structError :=
  ⟨by decide, by decide, by decide, by decide⟩

set_option maxRecDepth 8192 in
/-- C2 amended witness: the synthetic file `wBuf` (data offset 4, no data
block) saves to `wS`, which re-parses to the identical parsed state. -/
theorem c2_witness :
    (isBytes wBuf ∧ parseFile wBuf 9 = PResult.ok wP ∧
      wP.metadata.vgm_data_offset = 4 ∧ wP.data_block = none ∧
      save wP.metadata wP.command_list = some wS ∧
      parseFile wS 9 = PResult.ok wP) ∧
    (wP.command_list.length = wP.command_list.length ∧
      wP.command_list.map Cmd.command = wP.command_list.map Cmd.command) :=
  ⟨⟨by decide, by decide, by decide, by decide, by decide, by decide⟩,
    c2_amended_round_trip wBuf wS 9 9 wP wP (by decide) (by decide) (by decide)
      (by decide) (by decide) (by decide)⟩

end Vgmparse
